import Mathlib

/-
Verification of the price caching and aggregation engine of the
goal-folio-firebase Cloud Functions backend.

Shallow embedding conventions:
- Instants are epoch milliseconds (Int).  The Cloud Functions runtime
  executes with TZ = UTC, so the local getters of a JS Date (getFullYear,
  getMonth, getDate, getDay) agree with the UTC calendar; calendar
  conversions below use the proleptic Gregorian calendar (the civil
  algorithms of Howard Hinnant, which is what ECMAScript Date arithmetic
  implements for the supported range).
- Prices and volumes are rationals (JS numbers, no float rounding modelled).
- The Firestore document store is a function from (stock document id,
  price document id) to an Except, where Except.error models a store read
  that throws and Except.ok the returned document (or its absence).
  Write outcomes are passed as explicit Bool parameters (true = the write
  succeeds, false = the write throws and is caught by the service).
- Effectful service functions are translated to pure functions that take
  the store (and the fetch collaborator's already-computed result) as
  arguments and return the response together with the updated stores.
-/

/-- Day of week of a day number (days since 1970-01-01), 0 = Sunday, as
returned by JS Date.getDay under UTC. Day 0 (1970-01-01) was a Thursday. -/
def dow (z : Int) : Int := (z + 4) % 7

/-- Day number (days since 1970-01-01) of a civil calendar date, proleptic
Gregorian (Hinnant's days_from_civil, as implemented by ECMAScript Date). -/
def daysFromCivil (y m d : Int) : Int :=
  let y2 := if m ≤ 2 then y - 1 else y
  let era := y2 / 400
  let yoe := y2 - era * 400
  let mp := (m + 9) % 12
  let doy := (153 * mp + 2) / 5 + d - 1
  let doe := yoe * 365 + yoe / 4 - yoe / 100 + doy
  era * 146097 + doe - 719468

/-- Civil calendar date (year, month, day) of a day number (Hinnant's
civil_from_days, as implemented by ECMAScript Date). -/
def civilFromDays (z : Int) : Int × Int × Int :=
  let z2 := z + 719468
  let era := z2 / 146097
  let doe := z2 - era * 146097
  let yoe := (doe - doe / 1460 + doe / 36524 - doe / 146096) / 365
  let y := yoe + era * 400
  let doy := doe - (365 * yoe + yoe / 4 - yoe / 100)
  let mp := (5 * doy + 2) / 153
  let d := doy - (153 * mp + 2) / 5 + 1
  let m := if mp < 10 then mp + 3 else mp - 9
  (if m ≤ 2 then y + 1 else y, m, d)

/-- Calendar year of a day number (JS Date.getFullYear under UTC). -/
def yearOfDay (z : Int) : Int := (civilFromDays z).1

/-- Day number containing the instant t (epoch milliseconds). -/
def dayOfMillis (t : Int) : Int := t / 86400000

/-- Ceiling division, the integer value of JS Math.ceil(a / b) for b > 0. -/
def ceilDiv (a b : Int) : Int := -((-a) / b)

/-- Model of JS String.prototype.toUpperCase restricted to the symbols the
backend handles (ASCII ticker strings). -/
def toUpperString (s : String) : String := String.mk (s.data.map Char.toUpper)

/-- Zero-pad a numeral to two characters, as in padStart(2, "0") for the
month/day/week components produced by the source (always 1 or 2 digits). -/
def pad2 (n : Int) : String := if n < 10 then "0" ++ toString n else toString n

/-- Source function toDateString (src/unnamed/part_008): the YYYY-MM-DD part
of Date.prototype.toISOString, i.e. the UTC calendar date of the instant.
Model assumes years in 1000..9999 (4 plain digits), which holds for every
date the system manipulates. -/
def toDateString (t : Int) : String :=
  let c := civilFromDays (dayOfMillis t)
  toString c.1 ++ "-" ++ pad2 c.2.1 ++ "-" ++ pad2 c.2.2

/-- Source function getDaysAgoString (src/unnamed/part_008): the date string
of now minus daysAgo calendar days. -/
def getDaysAgoString (now : Int) (daysAgo : Nat) : String :=
  toDateString (now - (daysAgo : Int) * 86400000)

/-- Source function getTodayString (src/unnamed/part_008). -/
def getTodayString (now : Int) : String := toDateString now

/-- Source function isSameDay (src/functions/src/services/firestore.service.ts
lines 482-488): date1.getFullYear/getMonth/getDate all equal date2's.  Under
UTC these getters return the components of the civil date of the instant
(getMonth is 0-based in JS, an offset that cancels in the equality). -/
def isSameDay (t1 t2 : Int) : Bool :=
  civilFromDays (dayOfMillis t1) = civilFromDays (dayOfMillis t2)

/-- Civil time of day in the exchange's local zone (America/New_York), as
obtained by the source via toLocaleString: day of week (0 = Sunday), hour,
minute.  The translation from an instant to this clock is the timezone
database lookup, which the embedding takes as given. -/
structure ETClock where
  day : Int
  hour : Int
  minute : Int
  deriving DecidableEq, Repr

/-- Source function isMarketOpen (src/functions/src/services/priceCache.service.ts
lines 48-66): weekday and 9:30 AM to 4:00 PM Eastern. -/
def isMarketOpen (et : ETClock) : Bool :=
  if et.day = 0 || et.day = 6 then false
  else
    let currentMinutes := et.hour * 60 + et.minute
    let marketOpen := 9 * 60 + 30
    let marketClose := 16 * 60
    decide (marketOpen ≤ currentMinutes) && decide (currentMinutes < marketClose)

/-- Candle data unit (PriceCandle of priceCache.service.ts). -/
structure Candle where
  time : Int
  «open» : ℚ
  high : ℚ
  low : ℚ
  close : ℚ
  volume : ℚ
  deriving DecidableEq, Repr

/-- Source function aggregateToDaily (priceCache.service.ts lines 280-297):
null on empty input, otherwise open of the first candle, close of the last,
Math.max of the highs, Math.min of the lows, sum of the volumes, time of the
first candle. -/
def aggregateToDaily : List Candle → Option Candle
  | [] => none
  | c :: cs =>
    some
      { time := c.time
        «open» := c.«open»
        high := (cs.map Candle.high).foldl max c.high
        low := (cs.map Candle.low).foldl min c.low
        close := ((c :: cs).getLast (List.cons_ne_nil c cs)).close
        volume := ((c :: cs).map Candle.volume).foldl (fun sum v => sum + v) 0 }

lemma foldl_max_mem (l : List ℚ) (a : ℚ) : l.foldl max a = a ∨ l.foldl max a ∈ l := by
  induction l generalizing a with
  | nil => left; rfl
  | cons x xs ih =>
    rcases ih (max a x) with h | h
    · rcases max_choice a x with hc | hc
      · left; rw [List.foldl_cons, h, hc]
      · right; rw [List.foldl_cons, h, hc]; exact List.mem_cons_self x xs
    · right; exact List.mem_cons_of_mem x h

lemma le_foldl_max (l : List ℚ) (a : ℚ) : a ≤ l.foldl max a := by
  induction l generalizing a with
  | nil => exact le_refl a
  | cons x xs ih => exact le_trans (le_max_left a x) (ih (max a x))

lemma mem_le_foldl_max (l : List ℚ) (a : ℚ) : ∀ x ∈ l, x ≤ l.foldl max a := by
  induction l generalizing a with
  | nil => intro x hx; cases hx
  | cons y ys ih =>
    intro x hx
    rcases List.mem_cons.mp hx with h | h
    · subst h; exact le_trans (le_max_right a x) (le_foldl_max ys (max a x))
    · exact ih (max a y) x h

lemma foldl_min_mem (l : List ℚ) (a : ℚ) : l.foldl min a = a ∨ l.foldl min a ∈ l := by
  induction l generalizing a with
  | nil => left; rfl
  | cons x xs ih =>
    rcases ih (min a x) with h | h
    · rcases min_choice a x with hc | hc
      · left; rw [List.foldl_cons, h, hc]
      · right; rw [List.foldl_cons, h, hc]; exact List.mem_cons_self x xs
    · right; exact List.mem_cons_of_mem x h

lemma foldl_min_le (l : List ℚ) (a : ℚ) : l.foldl min a ≤ a := by
  induction l generalizing a with
  | nil => exact le_refl a
  | cons x xs ih => exact le_trans (ih (min a x)) (min_le_left a x)

lemma foldl_min_le_mem (l : List ℚ) (a : ℚ) : ∀ x ∈ l, l.foldl min a ≤ x := by
  induction l generalizing a with
  | nil => intro x hx; cases hx
  | cons y ys ih =>
    intro x hx
    rcases List.mem_cons.mp hx with h | h
    · subst h; exact le_trans (foldl_min_le ys (min a x)) (min_le_right a x)
    · exact ih (min a y) x h

lemma foldl_add_eq_sum (l : List ℚ) (a : ℚ) : l.foldl (fun sum v => sum + v) a = a + l.sum := by
  induction l generalizing a with
  | nil => simp
  | cons x xs ih => rw [List.foldl_cons, ih, List.sum_cons]; ring

/-- C3: for every non-empty ordered candle sequence, aggregateToDaily returns
a candle whose open is the first candle's open, close is the last candle's
close, high is the maximum of the highs, low is the minimum of the lows,
volume is the sum of the volumes and time is the first candle's time; on the
empty sequence it returns none (absent, not an error); and on the spec's
concrete two-candle example it yields open 10, high 13, low 9, close 12,
volume 300. -/
theorem aggregateToDaily_spec :
    (∀ (c : Candle) (cs : List Candle) (r : Candle),
      aggregateToDaily (c :: cs) = some r →
        r.«open» = c.«open» ∧
        r.time = c.time ∧
        r.close = ((c :: cs).getLast (List.cons_ne_nil c cs)).close ∧
        r.high ∈ (c :: cs).map Candle.high ∧
        (∀ x ∈ (c :: cs).map Candle.high, x ≤ r.high) ∧
        r.low ∈ (c :: cs).map Candle.low ∧
        (∀ x ∈ (c :: cs).map Candle.low, r.low ≤ x) ∧
        r.volume = ((c :: cs).map Candle.volume).sum) ∧
    (∀ (c : Candle) (cs : List Candle), (aggregateToDaily (c :: cs)).isSome) ∧
    aggregateToDaily [] = none ∧
    aggregateToDaily
        [{ time := 0, «open» := 10, high := 12, low := 9, close := 11, volume := 100 },
         { time := 1, «open» := 11, high := 13, low := 10, close := 12, volume := 200 }]
      = some { time := 0, «open» := 10, high := 13, low := 9, close := 12, volume := 300 } := by
  refine ⟨?_, ?_, rfl, by norm_num [aggregateToDaily, List.getLast]⟩
  · intro c cs r h
    simp only [aggregateToDaily, Option.some.injEq] at h
    subst h
    refine ⟨rfl, rfl, rfl, ?_, ?_, ?_, ?_, ?_⟩
    · rcases foldl_max_mem (cs.map Candle.high) c.high with h | h
      · rw [h]; exact List.mem_cons_self _ _
      · exact List.mem_cons_of_mem _ h
    · intro x hx
      rcases List.mem_cons.mp hx with h | h
      · subst h; exact le_foldl_max _ _
      · exact mem_le_foldl_max _ _ x h
    · rcases foldl_min_mem (cs.map Candle.low) c.low with h | h
      · rw [h]; exact List.mem_cons_self _ _
      · exact List.mem_cons_of_mem _ h
    · intro x hx
      rcases List.mem_cons.mp hx with h | h
      · subst h; exact foldl_min_le _ _
      · exact foldl_min_le_mem _ _ x h
    · rw [foldl_add_eq_sum]; ring
  · intro c cs; simp [aggregateToDaily]

/-- Witness for C3: the general part of aggregateToDaily_spec applied at the
spec's concrete example, with every hypothesis discharged there. -/
theorem aggregateToDaily_spec_witness :
    ({ time := 0, «open» := 10, high := 13, low := 9, close := 12, volume := 300 } : Candle).volume
      = ([{ time := 0, «open» := 10, high := 12, low := 9, close := 11, volume := 100 },
          { time := 1, «open» := 11, high := 13, low := 10, close := 12, volume := 200 }].map
            Candle.volume).sum :=
  (aggregateToDaily_spec.1
    { time := 0, «open» := 10, high := 12, low := 9, close := 11, volume := 100 }
    [{ time := 1, «open» := 11, high := 13, low := 10, close := 12, volume := 200 }]
    { time := 0, «open» := 10, high := 13, low := 9, close := 12, volume := 300 }
    (by norm_num [aggregateToDaily, List.getLast])).2.2.2.2.2.2.2

/-- Calendar year of an instant (spec-side projection, JS getFullYear). -/
def yearOf (t : Int) : Int := (civilFromDays (dayOfMillis t)).1

/-- Calendar month of an instant (spec-side projection). -/
def monthOf (t : Int) : Int := (civilFromDays (dayOfMillis t)).2.1

/-- Calendar day-of-month of an instant (spec-side projection). -/
def dayOf (t : Int) : Int := (civilFromDays (dayOfMillis t)).2.2

/-- Spec-side predicate: the two instants fall on the same calendar day,
stated as equal year, equal month and equal day, following the claim. -/
def sameCalendarDay (t1 t2 : Int) : Bool :=
  decide (yearOf t1 = yearOf t2) && decide (monthOf t1 = monthOf t2)
    && decide (dayOf t1 = dayOf t2)

lemma isSameDay_eq_sameCalendarDay (t1 t2 : Int) : isSameDay t1 t2 = sameCalendarDay t1 t2 := by
  unfold isSameDay sameCalendarDay yearOf monthOf dayOf
  rcases h1 : civilFromDays (dayOfMillis t1) with ⟨y1, m1, d1⟩
  rcases h2 : civilFromDays (dayOfMillis t2) with ⟨y2, m2, d2⟩
  simp [Prod.ext_iff, Bool.decide_and, decide_eq_decide, Bool.and_assoc]

/-- Source function getRecentOpenDayCandles (firestore.service.ts lines
448-477), after the upstream fetch: empty input returns the empty sequence;
otherwise the candles of the fetched series (sorted ascending by time by the
fetch collaborator) that share the calendar day of the last entry. -/
def getRecentOpenDayCandles : List Candle → List Candle
  | [] => []
  | c :: cs =>
    let lastOpenDate := ((c :: cs).getLast (List.cons_ne_nil c cs)).time
    (c :: cs).filter (fun candle => isSameDay lastOpenDate candle.time)

/-- C10: for every fetched intraday series, getRecentOpenDayCandles returns
exactly the candles whose time falls on the same calendar day (equal year,
month and day) as the last, most recent, candle of the series; the result is
non-empty whenever the series is non-empty, and the empty series yields the
empty sequence rather than an error. -/
theorem getRecentOpenDayCandles_spec :
    (∀ (c : Candle) (cs : List Candle),
      getRecentOpenDayCandles (c :: cs)
        = (c :: cs).filter
            (fun candle =>
              sameCalendarDay (((c :: cs).getLast (List.cons_ne_nil c cs)).time) candle.time) ∧
      getRecentOpenDayCandles (c :: cs) ≠ []) ∧
    getRecentOpenDayCandles [] = [] := by
  refine ⟨?_, rfl⟩
  intro c cs
  constructor
  · unfold getRecentOpenDayCandles
    exact List.filter_congr (fun x _ => isSameDay_eq_sameCalendarDay _ _)
  · refine List.ne_nil_of_mem (a := (c :: cs).getLast (List.cons_ne_nil c cs)) ?_
    unfold getRecentOpenDayCandles
    refine List.mem_filter.mpr ⟨List.getLast_mem _, ?_⟩
    simp [isSameDay]

/-- Witness for C10: getRecentOpenDayCandles_spec applied at a concrete
one-candle series. -/
theorem getRecentOpenDayCandles_spec_witness :
    getRecentOpenDayCandles
        [{ time := 0, «open» := 1, high := 1, low := 1, close := 1, volume := 1 }] ≠ [] :=
  (getRecentOpenDayCandles_spec.1
    { time := 0, «open» := 1, high := 1, low := 1, close := 1, volume := 1 } []).2

/-- Intraday cache document (CachedIntradayData of priceCache.service.ts);
lastUpdated is stored normalized to an instant. -/
structure CachedIntradayData where
  date : String
  interval : String
  symbol : String
  candles : List Candle
  lastUpdated : Int
  deriving DecidableEq, Repr

/-- Aggregate cache document (CachedAggregateData of priceCache.service.ts);
the prices record is an association list in insertion order. -/
structure CachedAggregateData where
  symbol : String
  granularity : String
  prices : List (String × Candle)
  lastUpdated : Int
  deriving DecidableEq, Repr

/-- Firestore subtree stocks/SYMBOL/prices/intraday_DATE, keyed by (stock
document id, price document id).  Except.error models a read that throws. -/
def IntradayStore : Type := String × String → Except Unit (Option CachedIntradayData)

/-- Firestore subtree stocks/SYMBOL/prices/GRANULARITY for aggregate docs. -/
def AggStore : Type := String × String → Except Unit (Option CachedAggregateData)

/-- Cache TTL configuration (priceCache.service.ts lines 12-18). -/
def CACHE_TTL_intraday : Int := 15 * 60 * 1000

/-- Cache TTL for intraday entries outside market hours. -/
def CACHE_TTL_intradayAfterClose : Int := 24 * 60 * 60 * 1000

/-- Cache TTL for the daily aggregate. -/
def CACHE_TTL_daily : Int := 24 * 60 * 60 * 1000

/-- Cache TTL for the weekly aggregate. -/
def CACHE_TTL_weekly : Int := 7 * 24 * 60 * 60 * 1000

/-- Cache TTL for the monthly aggregate. -/
def CACHE_TTL_monthly : Int := 30 * 24 * 60 * 60 * 1000

/-- Source function getCachedIntradayPrices (priceCache.service.ts lines
71-123): read stocks/SYMBOL/prices/intraday_DATE; miss on absence, on a
stored interval different from the requested one, and on staleness against
a market-hours-dependent TTL; a thrown read is caught and reported as null. -/
def getCachedIntradayPrices (store : IntradayStore) (symbol date interval : String)
    (now : Int) (et : ETClock) : Option (List Candle) :=
  match store (toUpperString symbol, "intraday_" ++ date) with
  | .error _ => none
  | .ok none => none
  | .ok (some data) =>
    if data.interval ≠ interval then none
    else
      let age := now - data.lastUpdated
      let ttl := if isMarketOpen et then CACHE_TTL_intraday else CACHE_TTL_intradayAfterClose
      if age > ttl then none
      else some data.candles

/-- Source function cacheIntradayPrices (priceCache.service.ts lines
128-160): overwrite stocks/SYMBOL/prices/intraday_DATE wholesale with the
given candles; a thrown write is caught and logged (store unchanged,
no error escapes). -/
def cacheIntradayPrices (store : IntradayStore) (writeOk : Bool) (symbol date interval : String)
    (candles : List Candle) (now : Int) : IntradayStore :=
  if writeOk then
    fun key =>
      if key = (toUpperString symbol, "intraday_" ++ date) then
        Except.ok (some
          { date := date, interval := interval, symbol := toUpperString symbol,
            candles := candles, lastUpdated := now })
      else store key
  else store

/-- Source function getCachedAggregatePrices (priceCache.service.ts lines
165-210): read stocks/SYMBOL/prices/GRANULARITY; miss on absence or
staleness against the granularity's TTL; a thrown read is caught and
reported as null. -/
def getCachedAggregatePrices (store : AggStore) (symbol granularity : String) (now : Int) :
    Option (List (String × Candle)) :=
  match store (toUpperString symbol, granularity) with
  | .error _ => none
  | .ok none => none
  | .ok (some data) =>
    let age := now - data.lastUpdated
    let ttl :=
      if granularity = "daily" then CACHE_TTL_daily
      else if granularity = "weekly" then CACHE_TTL_weekly
      else CACHE_TTL_monthly
    if age > ttl then none
    else some data.prices

/-- Source function cacheAggregatePrices (priceCache.service.ts lines
215-244): overwrite stocks/SYMBOL/prices/GRANULARITY wholesale; a thrown
write is caught and logged. -/
def cacheAggregatePrices (store : AggStore) (writeOk : Bool) (symbol granularity : String)
    (prices : List (String × Candle)) (now : Int) : AggStore :=
  if writeOk then
    fun key =>
      if key = (toUpperString symbol, granularity) then
        Except.ok (some
          { symbol := toUpperString symbol, granularity := granularity,
            prices := prices, lastUpdated := now })
      else store key
  else store

/-- Replace the candle under an existing date key, or append the pair,
mirroring a Firestore merge write to the nested field prices.DATE. -/
def upsertPrice (prices : List (String × Candle)) (date : String) (candle : Candle) :
    List (String × Candle) :=
  if prices.any (fun p => p.1 = date) then
    prices.map (fun p => if p.1 = date then (p.1, candle) else p)
  else prices ++ [(date, candle)]

/-- Source function updateDailyPrice (priceCache.service.ts lines 249-275):
merge-upsert one date key into stocks/SYMBOL/prices/daily, stamping the
server time; a thrown write is caught and logged. -/
def updateDailyPrice (store : AggStore) (writeOk : Bool) (symbol date : String)
    (candle : Candle) (now : Int) : AggStore :=
  if writeOk then
    fun key =>
      if key = (toUpperString symbol, "daily") then
        Except.ok (some
          (match store key with
            | .ok (some old) =>
              { old with
                symbol := toUpperString symbol, granularity := "daily",
                prices := upsertPrice old.prices date candle, lastUpdated := now }
            | _ =>
              { symbol := toUpperString symbol, granularity := "daily",
                prices := [(date, candle)], lastUpdated := now }))
      else store key
  else store

/-- Spec-side market-open predicate, stated from the claim's words: the
current time in the exchange's local zone falls on Monday through Friday
and the local clock time lies in the half-open range 09:30 to 16:00. -/
def MarketOpenClaim (et : ETClock) : Prop :=
  (1 ≤ et.day ∧ et.day ≤ 5) ∧
    ((9 < et.hour ∨ (et.hour = 9 ∧ 30 ≤ et.minute)) ∧ et.hour < 16)

instance (et : ETClock) : Decidable (MarketOpenClaim et) := by
  unfold MarketOpenClaim; infer_instance

lemma isMarketOpen_iff_claim (et : ETClock) (hday : 0 ≤ et.day ∧ et.day ≤ 6)
    (hhour : 0 ≤ et.hour ∧ et.hour ≤ 23) (hminute : 0 ≤ et.minute ∧ et.minute < 60) :
    isMarketOpen et = true ↔ MarketOpenClaim et := by
  unfold isMarketOpen MarketOpenClaim
  rcases et with ⟨d, h, m⟩
  simp only at hday hhour hminute ⊢
  split
  · next hcond =>
      simp only [Bool.or_eq_true, decide_eq_true_eq] at hcond
      constructor
      · intro hfalse; cases hfalse
      · intro hclaim; exfalso; omega
  · next hcond =>
      simp only [Bool.or_eq_true, decide_eq_true_eq, not_or] at hcond
      simp only [Bool.and_eq_true, decide_eq_true_eq]
      omega


/-- C5: for a cached intraday entry whose stored interval matches the
request, getCachedIntradayPrices reports the entry fresh (returning its
candles) exactly when its age, now minus lastUpdated, does not exceed a TTL
chosen at decision time: 15 minutes when the market-open predicate holds
(Monday through Friday, exchange-local clock in 09:30 to 16:00), and 24
hours otherwise; a stale entry is reported as a miss (none). -/
theorem getCachedIntradayPrices_ttl_spec (store : IntradayStore)
    (symbol date interval : String) (data : CachedIntradayData) (now : Int) (et : ETClock)
    (hstore : store (toUpperString symbol, "intraday_" ++ date) = Except.ok (some data))
    (hinterval : data.interval = interval)
    (hday : 0 ≤ et.day ∧ et.day ≤ 6) (hhour : 0 ≤ et.hour ∧ et.hour ≤ 23)
    (hminute : 0 ≤ et.minute ∧ et.minute < 60) :
    getCachedIntradayPrices store symbol date interval now et
      = if now - data.lastUpdated
            ≤ (if MarketOpenClaim et then 15 * 60 * 1000 else 24 * 60 * 60 * 1000)
        then some data.candles else none := by
  unfold getCachedIntradayPrices
  rw [hstore]
  dsimp only
  rw [if_neg (show ¬(data.interval ≠ interval) from fun h => h hinterval)]
  have httl : (if isMarketOpen et = true then CACHE_TTL_intraday else CACHE_TTL_intradayAfterClose)
      = (if MarketOpenClaim et then (15 * 60 * 1000 : Int) else 24 * 60 * 60 * 1000) := by
    by_cases hm : MarketOpenClaim et
    · rw [if_pos ((isMarketOpen_iff_claim et hday hhour hminute).mpr hm), if_pos hm]; rfl
    · rw [if_neg (fun h => hm ((isMarketOpen_iff_claim et hday hhour hminute).mp h)), if_neg hm]
      rfl
  rw [httl]
  by_cases hage : now - data.lastUpdated
      ≤ (if MarketOpenClaim et then (15 * 60 * 1000 : Int) else 24 * 60 * 60 * 1000)
  · rw [if_neg (not_lt.mpr hage), if_pos hage]
  · rw [if_pos (not_le.mp hage), if_neg hage]

/-- Witness for C5: the theorem applied at a concrete fresh market-open
entry, every hypothesis discharged. -/
theorem getCachedIntradayPrices_ttl_spec_witness :
    getCachedIntradayPrices
        (fun key =>
          if key = ("AAPL", "intraday_2025-01-02") then
            Except.ok (some
              { date := "2025-01-02", interval := "15min", symbol := "AAPL",
                candles := [], lastUpdated := 1000 })
          else Except.ok none)
        "AAPL" "2025-01-02" "15min" 2000 { day := 4, hour := 10, minute := 0 }
      = some [] := by
  have h := getCachedIntradayPrices_ttl_spec
    (fun key =>
      if key = ("AAPL", "intraday_2025-01-02") then
        Except.ok (some
          { date := "2025-01-02", interval := "15min", symbol := "AAPL",
            candles := [], lastUpdated := 1000 })
      else Except.ok none)
    "AAPL" "2025-01-02" "15min"
    { date := "2025-01-02", interval := "15min", symbol := "AAPL",
      candles := [], lastUpdated := 1000 }
    2000 { day := 4, hour := 10, minute := 0 }
    (by rfl) rfl (by norm_num) (by norm_num) (by norm_num)
  rw [h]
  norm_num [MarketOpenClaim]

/-- C6: for a cached daily-granularity aggregate entry the freshness check
uses a 24-hour TTL: the prices map is returned iff the age is at most 24
hours; in particular, an entry last updated 23 hours ago is reported fresh
and one last updated 25 hours ago is reported stale (none). -/
theorem getCachedAggregatePrices_daily_ttl (store : AggStore) (symbol : String)
    (data : CachedAggregateData)
    (hstore : store (toUpperString symbol, "daily") = Except.ok (some data)) :
    (∀ now : Int,
      getCachedAggregatePrices store symbol "daily" now
        = if now - data.lastUpdated ≤ 24 * 60 * 60 * 1000 then some data.prices else none) ∧
    getCachedAggregatePrices store symbol "daily" (data.lastUpdated + 23 * 60 * 60 * 1000)
      = some data.prices ∧
    getCachedAggregatePrices store symbol "daily" (data.lastUpdated + 25 * 60 * 60 * 1000)
      = none := by
  have hgen : ∀ now : Int,
      getCachedAggregatePrices store symbol "daily" now
        = if now - data.lastUpdated ≤ 24 * 60 * 60 * 1000 then some data.prices else none := by
    intro now
    unfold getCachedAggregatePrices
    rw [hstore]
    dsimp only
    rw [if_pos rfl]
    simp only [CACHE_TTL_daily]
    by_cases hage : now - data.lastUpdated ≤ (24 * 60 * 60 * 1000 : Int)
    · rw [if_neg (by omega), if_pos hage]
    · rw [if_pos (by omega), if_neg hage]
  refine ⟨hgen, ?_, ?_⟩
  · rw [hgen, if_pos (by omega)]
  · rw [hgen, if_neg (by omega)]

/-- Witness for C6: the theorem applied at a concrete daily entry. -/
theorem getCachedAggregatePrices_daily_ttl_witness :
    getCachedAggregatePrices
        (fun key =>
          if key = ("AAPL", "daily") then
            Except.ok (some
              { symbol := "AAPL", granularity := "daily", prices := [], lastUpdated := 0 })
          else Except.ok none)
        "AAPL" "daily" (0 + 23 * 60 * 60 * 1000)
      = some [] :=
  (getCachedAggregatePrices_daily_ttl
    (fun key =>
      if key = ("AAPL", "daily") then
        Except.ok (some
          { symbol := "AAPL", granularity := "daily", prices := [], lastUpdated := 0 })
      else Except.ok none)
    "AAPL"
    { symbol := "AAPL", granularity := "daily", prices := [], lastUpdated := 0 }
    (by rfl)).2.1

/-- C7: an intraday cache entry whose stored interval differs from the
requested interval is reported as a miss (none) with no freshness
evaluation performed: the result is none for every decision-time clock and
every value of now; in particular an entry stored at 15min queried at 60min
misses on the same symbol and date. -/
theorem getCachedIntradayPrices_interval_mismatch :
    (∀ (store : IntradayStore) (symbol date interval : String) (data : CachedIntradayData)
        (now : Int) (et : ETClock),
      store (toUpperString symbol, "intraday_" ++ date) = Except.ok (some data) →
      data.interval ≠ interval →
      getCachedIntradayPrices store symbol date interval now et = none) ∧
    (∀ (now lastUpdated : Int) (et : ETClock) (candles : List Candle),
      getCachedIntradayPrices
          (fun key =>
            if key = ("AAPL", "intraday_2025-01-02") then
              Except.ok (some
                { date := "2025-01-02", interval := "15min", symbol := "AAPL",
                  candles := candles, lastUpdated := lastUpdated })
            else Except.ok none)
          "AAPL" "2025-01-02" "60min" now et
        = none) := by
  have hgen : ∀ (store : IntradayStore) (symbol date interval : String)
      (data : CachedIntradayData) (now : Int) (et : ETClock),
      store (toUpperString symbol, "intraday_" ++ date) = Except.ok (some data) →
      data.interval ≠ interval →
      getCachedIntradayPrices store symbol date interval now et = none := by
    intro store symbol date interval data now et hstore hne
    unfold getCachedIntradayPrices
    rw [hstore]
    dsimp only
    rw [if_pos hne]
  refine ⟨hgen, ?_⟩
  intro now lastUpdated et candles
  exact hgen _ "AAPL" "2025-01-02" "60min"
    { date := "2025-01-02", interval := "15min", symbol := "AAPL",
      candles := candles, lastUpdated := lastUpdated }
    now et (by rfl) (by simp)

/-- Witness for C7: the theorem applied at a concrete mismatched entry. -/
theorem getCachedIntradayPrices_interval_mismatch_witness :
    getCachedIntradayPrices
        (fun key =>
          if key = ("AAPL", "intraday_2025-01-02") then
            Except.ok (some
              { date := "2025-01-02", interval := "15min", symbol := "AAPL",
                candles := [], lastUpdated := 0 })
          else Except.ok none)
        "AAPL" "2025-01-02" "60min" 0 { day := 4, hour := 10, minute := 0 }
      = none :=
  getCachedIntradayPrices_interval_mismatch.2 0 0 { day := 4, hour := 10, minute := 0 } []

/-- Fallback interval order tried by the resolver
(src/functions/src/index.ts line 38). -/
def fallbackIntervals : List String := ["15min", "60min", "30min", "5min", "1min"]

/-- Inner loop of findRecentCachedData (index.ts lines 67-86): scan the
fallback intervals for one date, skipping the already-tried preferred
interval, returning the first non-empty cached sequence with its interval. -/
def tryOtherIntervals (store : IntradayStore) (symbol dateStr preferred : String)
    (now : Int) (et : ETClock) : List String → Option (List Candle × String)
  | [] => none
  | i :: rest =>
    if i = preferred then tryOtherIntervals store symbol dateStr preferred now et rest
    else
      match getCachedIntradayPrices store symbol dateStr i now et with
      | some l =>
        if 0 < l.length then some (l, i)
        else tryOtherIntervals store symbol dateStr preferred now et rest
      | none => tryOtherIntervals store symbol dateStr preferred now et rest

/-- One date step of findRecentCachedData (index.ts lines 44-86): the
preferred interval first, then the other intervals. -/
def tryDate (store : IntradayStore) (symbol dateStr preferred : String)
    (now : Int) (et : ETClock) : Option (List Candle × String) :=
  match getCachedIntradayPrices store symbol dateStr preferred now et with
  | some l =>
    if 0 < l.length then some (l, preferred)
    else tryOtherIntervals store symbol dateStr preferred now et fallbackIntervals
  | none => tryOtherIntervals store symbol dateStr preferred now et fallbackIntervals

/-- Outer loop of findRecentCachedData (index.ts lines 41-87) over the
days-back counters. -/
def findLoop (store : IntradayStore) (symbol preferred : String) (now : Int) (et : ETClock) :
    List Nat → Option (List Candle × String)
  | [] => none
  | d :: ds =>
    match tryDate store symbol (getDaysAgoString now d) preferred now et with
    | some r => some r
    | none => findLoop store symbol preferred now et ds

/-- Source function findRecentCachedData (index.ts lines 33-94): cache-only
smart lookup over days back 0..5, preferred interval first at each date. -/
def findRecentCachedData (store : IntradayStore) (symbol preferredInterval : String)
    (now : Int) (et : ETClock) : Option (List Candle × String) :=
  findLoop store (toUpperString symbol) preferredInterval now et (List.range 6)

/-- Spec-side: first probe of a plan that yields a hit. -/
def firstHit (f : α → Option β) : List α → Option β
  | [] => none
  | a :: l =>
    match f a with
    | some b => some b
    | none => firstHit f l

/-- Spec-side probe plan from the claim's words: dates from today back
through 5 days prior in order; at each date the preferred interval first,
then the fixed fallback order skipping the preferred interval. -/
def probePlan (preferred : String) : List (Nat × String) :=
  (List.range 6).flatMap
    (fun d => (preferred :: fallbackIntervals.filter (fun i => i ≠ preferred)).map
      (fun i => (d, i)))

/-- Spec-side single probe: the cache-only store read for one (days-back,
interval) pair, a hit iff it returns a non-empty candle sequence, reported
together with the interval at which it was found. -/
def probeHit (store : IntradayStore) (symbol : String) (now : Int) (et : ETClock)
    (p : Nat × String) : Option (List Candle × String) :=
  match getCachedIntradayPrices store (toUpperString symbol) (getDaysAgoString now p.1) p.2
      now et with
  | some l => if 0 < l.length then some (l, p.2) else none
  | none => none

lemma firstHit_cons_some (f : α → Option β) (a : α) (l : List α) (b : β) (h : f a = some b) :
    firstHit f (a :: l) = some b := by
  simp only [firstHit]; rw [h]

lemma firstHit_cons_none (f : α → Option β) (a : α) (l : List α) (h : f a = none) :
    firstHit f (a :: l) = firstHit f l := by
  simp only [firstHit]; rw [h]

lemma firstHit_append (f : α → Option β) (l1 l2 : List α) :
    firstHit f (l1 ++ l2)
      = match firstHit f l1 with
        | some b => some b
        | none => firstHit f l2 := by
  induction l1 with
  | nil => rfl
  | cons a l ih =>
    cases h : f a with
    | some b => rw [List.cons_append, firstHit_cons_some f a _ b h, firstHit_cons_some f a l b h]
    | none => rw [List.cons_append, firstHit_cons_none f a _ h, firstHit_cons_none f a l h, ih]

lemma firstHit_map (f : β → Option γ) (g : α → β) (l : List α) :
    firstHit f (l.map g) = firstHit (fun a => f (g a)) l := by
  induction l with
  | nil => rfl
  | cons a l ih =>
    cases h : f (g a) with
    | some b =>
      rw [List.map_cons, firstHit_cons_some f (g a) _ b h,
        firstHit_cons_some (fun a => f (g a)) a l b h]
    | none =>
      rw [List.map_cons, firstHit_cons_none f (g a) _ h,
        firstHit_cons_none (fun a => f (g a)) a l h, ih]

lemma tryOtherIntervals_eq (store : IntradayStore) (symbol dateStr preferred : String)
    (now : Int) (et : ETClock) (l : List String) :
    tryOtherIntervals store symbol dateStr preferred now et l
      = firstHit
          (fun i =>
            match getCachedIntradayPrices store symbol dateStr i now et with
            | some c => if 0 < c.length then some (c, i) else none
            | none => none)
          (l.filter (fun i => i ≠ preferred)) := by
  induction l with
  | nil => rfl
  | cons i rest ih =>
    by_cases h : i = preferred
    · simp only [tryOtherIntervals]
      rw [if_pos h, ih]
      congr 1
      simp [List.filter_cons, h]
    · simp only [tryOtherIntervals]
      rw [if_neg h]
      rw [show (i :: rest).filter (fun i => i ≠ preferred)
          = i :: rest.filter (fun i => i ≠ preferred) from by simp [List.filter_cons, h]]
      cases hg : getCachedIntradayPrices store symbol dateStr i now et with
      | some c =>
        by_cases hl : 0 < c.length
        · rw [firstHit_cons_some _ i _ (c, i) (by simp [hg, hl])]
          simp [hl]
        · rw [firstHit_cons_none _ i _ (by simp [hg, hl])]
          simpa [hl] using ih
      | none =>
        rw [firstHit_cons_none _ i _ (by simp [hg])]
        simpa using ih

lemma tryDate_eq (store : IntradayStore) (symbol dateStr preferred : String)
    (now : Int) (et : ETClock) :
    tryDate store symbol dateStr preferred now et
      = firstHit
          (fun i =>
            match getCachedIntradayPrices store symbol dateStr i now et with
            | some c => if 0 < c.length then some (c, i) else none
            | none => none)
          (preferred :: fallbackIntervals.filter (fun i => i ≠ preferred)) := by
  unfold tryDate
  cases hg : getCachedIntradayPrices store symbol dateStr preferred now et with
  | some c =>
    by_cases hl : 0 < c.length
    · rw [firstHit_cons_some _ preferred _ (c, preferred) (by simp [hg, hl])]
      simp [hl]
    · rw [firstHit_cons_none _ preferred _ (by simp [hg, hl])]
      simpa [hl] using tryOtherIntervals_eq store symbol dateStr preferred now et fallbackIntervals
  | none =>
    rw [firstHit_cons_none _ preferred _ (by simp [hg])]
    simpa using tryOtherIntervals_eq store symbol dateStr preferred now et fallbackIntervals

lemma findLoop_eq (store : IntradayStore) (symbol preferred : String) (now : Int)
    (et : ETClock) (ds : List Nat) :
    findLoop store symbol preferred now et ds
      = firstHit
          (fun p : Nat × String =>
            match getCachedIntradayPrices store symbol (getDaysAgoString now p.1) p.2 now et with
            | some c => if 0 < c.length then some (c, p.2) else none
            | none => none)
          (ds.flatMap
            (fun d => (preferred :: fallbackIntervals.filter (fun i => i ≠ preferred)).map
              (fun i => (d, i)))) := by
  induction ds with
  | nil => rfl
  | cons d ds ih =>
    rw [List.flatMap_cons, firstHit_append, firstHit_map]
    have hfun : (fun a : String =>
        match getCachedIntradayPrices store symbol (getDaysAgoString now (d, a).1) (d, a).2
            now et with
        | some c => if 0 < c.length then some (c, (d, a).2) else none
        | none => none)
      = (fun i : String =>
          match getCachedIntradayPrices store symbol (getDaysAgoString now d) i now et with
          | some c => if 0 < c.length then some (c, i) else none
          | none => none) := by
      funext a; rfl
    rw [hfun]
    unfold findLoop
    rw [tryDate_eq, ih]
    generalize firstHit
        (fun i =>
          match getCachedIntradayPrices store symbol (getDaysAgoString now d) i now et with
          | some c => if 0 < c.length then some (c, i) else none
          | none => none)
        (preferred :: fallbackIntervals.filter (fun i => i ≠ preferred)) = s
    cases s <;> rfl

/-- C4: findRecentCachedData performs only cache-store probes and equals the
first non-empty hit over the spec's probe plan: dates from today back
through 5 calendar days prior in order, at each date the preferred interval
first and then the fixed fallback order 15min, 60min, 30min, 5min, 1min
skipping the preferred interval, each hit reported with the interval at
which it was found; the plan visits at most 6 distinct dates and exactly 5
intervals per date (30 probes), and when every probe misses the resolver
reports not-found (none). -/
theorem findRecentCachedData_spec (store : IntradayStore) (symbol preferred : String)
    (now : Int) (et : ETClock) (hvalid : preferred ∈ fallbackIntervals) :
    findRecentCachedData store symbol preferred now et
      = firstHit (probeHit store symbol now et) (probePlan preferred) ∧
    (probePlan preferred).length = 6 * 5 ∧
    (∀ p ∈ probePlan preferred, p.1 < 6 ∧ p.2 ∈ fallbackIntervals) ∧
    ((∀ p ∈ probePlan preferred, probeHit store symbol now et p = none) →
      findRecentCachedData store symbol preferred now et = none) := by
  have hmain : findRecentCachedData store symbol preferred now et
      = firstHit (probeHit store symbol now et) (probePlan preferred) := by
    unfold findRecentCachedData probePlan probeHit
    exact findLoop_eq store (toUpperString symbol) preferred now et (List.range 6)
  have hlen : (probePlan preferred).length = 6 * 5 := by
    have : preferred = "15min" ∨ preferred = "60min" ∨ preferred = "30min" ∨
        preferred = "5min" ∨ preferred = "1min" := by
      simpa [fallbackIntervals] using hvalid
    rcases this with h | h | h | h | h <;> subst h <;> rfl
  have hrange : ∀ p ∈ probePlan preferred, p.1 < 6 ∧ p.2 ∈ fallbackIntervals := by
    intro p hp
    unfold probePlan at hp
    rw [List.mem_flatMap] at hp
    obtain ⟨d, hd, hp⟩ := hp
    rw [List.mem_map] at hp
    obtain ⟨i, hi, rfl⟩ := hp
    refine ⟨by simpa using List.mem_range.mp hd, ?_⟩
    rcases List.mem_cons.mp hi with h | h
    · subst h; exact hvalid
    · exact List.mem_of_mem_filter h
  refine ⟨hmain, hlen, hrange, ?_⟩
  intro hmiss
  rw [hmain]
  have hnone : ∀ (l : List (Nat × String)),
      (∀ p ∈ l, probeHit store symbol now et p = none) →
      firstHit (probeHit store symbol now et) l = none := by
    intro l
    induction l with
    | nil => intro _; rfl
    | cons a l ih =>
      intro h
      rw [firstHit_cons_none _ a l (h a (List.mem_cons_self a l))]
      exact ih (fun p hp => h p (List.mem_cons_of_mem a hp))
  exact hnone _ hmiss

/-- Witness for C4: the theorem applied at an always-empty store with
preferred interval 15min, hypotheses discharged. -/
theorem findRecentCachedData_spec_witness :
    findRecentCachedData (fun _ => Except.ok none) "aapl" "15min" 0
        { day := 4, hour := 10, minute := 0 }
      = firstHit (probeHit (fun _ => Except.ok none) "aapl" 0
          { day := 4, hour := 10, minute := 0 }) (probePlan "15min") ∧
    (probePlan "15min").length = 6 * 5 :=
  ⟨(findRecentCachedData_spec (fun _ => Except.ok none) "aapl" "15min" 0
      { day := 4, hour := 10, minute := 0 } (by decide)).1,
   (findRecentCachedData_spec (fun _ => Except.ok none) "aapl" "15min" 0
      { day := 4, hour := 10, minute := 0 } (by decide)).2.1⟩

/-- C9: every cache operation addresses the store under the uppercased
symbol and records the uppercased symbol in the stored document, so two
calls whose symbols have the same uppercasing (differ only in letter case)
behave identically: equal read results, and equal store transformations for
the writes; the intraday write stores a document carrying the uppercased
symbol. -/
theorem cacheOps_symbol_case_insensitive (s1 s2 : String)
    (h : toUpperString s1 = toUpperString s2) :
    (∀ (store : IntradayStore) (date interval : String) (now : Int) (et : ETClock),
      getCachedIntradayPrices store s1 date interval now et
        = getCachedIntradayPrices store s2 date interval now et) ∧
    (∀ (store : IntradayStore) (writeOk : Bool) (date interval : String)
        (candles : List Candle) (now : Int),
      cacheIntradayPrices store writeOk s1 date interval candles now
        = cacheIntradayPrices store writeOk s2 date interval candles now) ∧
    (∀ (store : AggStore) (granularity : String) (now : Int),
      getCachedAggregatePrices store s1 granularity now
        = getCachedAggregatePrices store s2 granularity now) ∧
    (∀ (store : AggStore) (writeOk : Bool) (granularity : String)
        (prices : List (String × Candle)) (now : Int),
      cacheAggregatePrices store writeOk s1 granularity prices now
        = cacheAggregatePrices store writeOk s2 granularity prices now) ∧
    (∀ (store : AggStore) (writeOk : Bool) (date : String) (candle : Candle) (now : Int),
      updateDailyPrice store writeOk s1 date candle now
        = updateDailyPrice store writeOk s2 date candle now) ∧
    (∀ (store : IntradayStore) (date interval : String) (candles : List Candle) (now : Int),
      ∃ doc : CachedIntradayData,
        cacheIntradayPrices store true s1 date interval candles now
            (toUpperString s1, "intraday_" ++ date) = Except.ok (some doc) ∧
        doc.symbol = toUpperString s1) := by
  refine ⟨?_, ?_, ?_, ?_, ?_, ?_⟩
  · intro store date interval now et
    unfold getCachedIntradayPrices
    rw [h]
  · intro store writeOk date interval candles now
    unfold cacheIntradayPrices
    rw [h]
  · intro store granularity now
    unfold getCachedAggregatePrices
    rw [h]
  · intro store writeOk granularity prices now
    unfold cacheAggregatePrices
    rw [h]
  · intro store writeOk date candle now
    unfold updateDailyPrice
    rw [h]
  · intro store date interval candles now
    refine ⟨{ date := date, interval := interval, symbol := toUpperString s1,
              candles := candles, lastUpdated := now }, ?_, rfl⟩
    unfold cacheIntradayPrices
    rw [if_pos rfl, if_pos rfl]

/-- Witness for C9: the theorem applied at the concrete pair of symbols
aapl and AaPl, whose uppercasings agree; hypothesis discharged by
computation. -/
theorem cacheOps_symbol_case_insensitive_witness :
    getCachedIntradayPrices (fun _ => Except.ok none) "aapl" "2025-01-02" "15min" 0
        { day := 4, hour := 10, minute := 0 }
      = getCachedIntradayPrices (fun _ => Except.ok none) "AaPl" "2025-01-02" "15min" 0
        { day := 4, hour := 10, minute := 0 } :=
  (cacheOps_symbol_case_insensitive "aapl" "AaPl" (by decide)).1
    (fun _ => Except.ok none) "2025-01-02" "15min" 0 { day := 4, hour := 10, minute := 0 }

/-- Source function getISOWeek (priceCache.service.ts lines 365-375): shift
the date to the Thursday of its Monday-based week (this Thursday's value is
captured as the source's firstThursday variable); move to January 1 of that
Thursday's year and forward to that year's first Thursday if needed; the
week is 1 plus the ceiling of the millisecond difference over one week. -/
def getISOWeek (z : Int) : Int :=
  let dayNr := (dow z + 6) % 7
  let thursday := z - dayNr + 3
  let y := yearOfDay thursday
  let jan1 := daysFromCivil y 1 1
  let firstThursday :=
    if dow jan1 ≠ 4 then daysFromCivil y 1 (1 + (4 - dow jan1 + 7) % 7) else jan1
  1 + ceilDiv ((thursday - firstThursday) * 86400000) 604800000

/-- Spec-side ISO-8601 week of a day number, from the claim's words: a week
is identified by the Thursday of its Monday-based week, the week-numbering
year is that Thursday's calendar year, and week 1 is the week containing
that year's first Thursday.  Returns (week-based year, week number). -/
def isoWeekPair (z : Int) : Int × Int :=
  let thursday := z - ((dow z + 6) % 7) + 3
  let y := yearOfDay thursday
  let jan1 := daysFromCivil y 1 1
  let firstThursday := jan1 + (4 - dow jan1 + 7) % 7
  (y, 1 + (thursday - firstThursday) / 7)

lemma daysFromCivil_jan (y k : Int) : daysFromCivil y 1 (1 + k) = daysFromCivil y 1 1 + k := by
  simp only [daysFromCivil]
  norm_num
  omega

lemma getISOWeek_eq_isoWeekNumber (z : Int) : getISOWeek z = (isoWeekPair z).2 := by
  simp only [getISOWeek, isoWeekPair, dow, ceilDiv]
  rw [daysFromCivil_jan]
  generalize daysFromCivil (yearOfDay (z - ((z + 4) % 7 + 6) % 7 + 3)) 1 1 = j
  by_cases h4 : (j + 4) % 7 = 4
  · rw [if_neg (show ¬((j + 4) % 7 ≠ 4) from by omega)]
    omega
  · rw [if_pos h4]
    omega

/-- Week key string assembled by the loop of aggregateToWeekly
(priceCache.service.ts line 312): year, dash-W, two-digit-padded week. -/
def weekKeyString (year week : Int) : String :=
  toString year ++ "-W" ++ pad2 week

/-- Key computed by the loop body of aggregateToWeekly (priceCache.service.ts
lines 309-312) for a parsed calendar date: the date's own calendar year
(getFullYear) paired with getISOWeek of the date. -/
def weekKeyOfDate (ymd : Int × Int × Int) : String :=
  weekKeyString ymd.1 (getISOWeek (daysFromCivil ymd.1 ymd.2.1 ymd.2.2))

/-- Append a candle to its key's group, creating the group at the end on
first occurrence (JS object insertion-order semantics). -/
def insertGroup (key : String) (c : Candle) :
    List (String × List Candle) → List (String × List Candle)
  | [] => [(key, [c])]
  | (k, l) :: rest =>
    if k = key then (k, l ++ [c]) :: rest else (k, l) :: insertGroup key c rest

/-- Group entries by a key function, preserving insertion order, as the
grouping loop of aggregateToWeekly does. -/
def groupByKey (f : α → String) (entries : List (α × Candle)) :
    List (String × List Candle) :=
  entries.foldl (fun acc e => insertGroup (f e.1) e.2 acc) []

/-- Source function aggregateToWeekly (priceCache.service.ts lines 302-330):
group the daily entries, each keyed by its parsed calendar date, under the
loop's week key, then aggregate every group with aggregateToDaily. -/
def aggregateToWeekly (dailyPrices : List ((Int × Int × Int) × Candle)) :
    List (String × Candle) :=
  (groupByKey weekKeyOfDate dailyPrices).filterMap
    (fun g => (aggregateToDaily g.2).map (fun c => (g.1, c)))

/-- Spec-side ISO-8601 week key of a calendar date, per the claim: the
week-based year and the week number, rendered YYYY-Www. -/
def isoWeekKeyOfDate (ymd : Int × Int × Int) : String :=
  weekKeyString (isoWeekPair (daysFromCivil ymd.1 ymd.2.1 ymd.2.2)).1
    (isoWeekPair (daysFromCivil ymd.1 ymd.2.1 ymd.2.2)).2

/-- Amended period key: the date's own calendar year paired with the date's
ISO-8601 week number. -/
def calendarYearIsoWeekKey (ymd : Int × Int × Int) : String :=
  weekKeyString ymd.1 (isoWeekPair (daysFromCivil ymd.1 ymd.2.1 ymd.2.2)).2

lemma groupByKey_congr (f g : α → String) (h : ∀ a, f a = g a)
    (entries : List (α × Candle)) : groupByKey f entries = groupByKey g entries := by
  unfold groupByKey
  suffices hs : ∀ acc, entries.foldl (fun acc e => insertGroup (f e.1) e.2 acc) acc
      = entries.foldl (fun acc e => insertGroup (g e.1) e.2 acc) acc from hs []
  induction entries with
  | nil => intro acc; rfl
  | cons e rest ih =>
    intro acc
    simp only [List.foldl_cons]
    rw [h e.1]
    exact ih _

/-- C2 (amended): aggregateToWeekly groups the daily entries by the period
key formed from the date's own calendar year and the date's ISO-8601 week
number (week 1 being the week that contains the year's first Thursday), the
grouping computed from the calendar date itself, and folds each group's
candles with the same OHLCV rule as aggregateToDaily, keyed by that
string.  At year boundaries this key differs from the ISO-8601 week label,
whose year is the week-based year. -/
theorem aggregateToWeekly_amended (dailyPrices : List ((Int × Int × Int) × Candle)) :
    aggregateToWeekly dailyPrices
      = (groupByKey calendarYearIsoWeekKey dailyPrices).filterMap
          (fun g => (aggregateToDaily g.2).map (fun c => (g.1, c))) := by
  unfold aggregateToWeekly
  rw [groupByKey_congr weekKeyOfDate calendarYearIsoWeekKey
    (fun ymd => by
      unfold weekKeyOfDate calendarYearIsoWeekKey
      rw [getISOWeek_eq_isoWeekNumber])]

/-- Counterexample for C2 as stated: the daily map with entries dated
2024-01-04 and 2024-12-30 — two dates lying in different ISO-8601 weeks
(2024-W01 and 2025-W01 respectively) — is folded by aggregateToWeekly into
a single group under the key 2024-W01, because the loop pairs the calendar
year with the ISO week number instead of using the ISO week-based year. -/
theorem aggregateToWeekly_iso_counterexample :
    (aggregateToWeekly
        [((2024, 1, 4), { time := 0, «open» := 1, high := 1, low := 1, close := 1, volume := 1 }),
         ((2024, 12, 30), { time := 1, «open» := 2, high := 2, low := 2, close := 2, volume := 2 })]).map
        Prod.fst
      = ["2024-W01"] ∧
    isoWeekKeyOfDate (2024, 1, 4) = "2024-W01" ∧
    isoWeekKeyOfDate (2024, 12, 30) = "2025-W01" := by
  refine ⟨by decide, by decide, by decide⟩

/-- Model of the handlers' blank-symbol validation (part_003 lines 43, 150):
the JS check of a missing symbol or symbol.trim().length === 0 holds exactly
when every character of the symbol is whitespace. -/
def isBlank (s : String) : Bool := s.data.all Char.isWhitespace

/-- Valid interval whitelist of the request handlers (src/unnamed/part_003
lines 48 and 155). -/
def validIntervals : List String := ["1min", "5min", "15min", "30min", "60min"]

/-- Response shape of getIntradayPrices (part_003 lines 119-130); candle
times are serialized to ISO strings only at the transport boundary and are
kept as instants here. -/
structure IntradayResponse where
  symbol : String
  interval : String
  candles : List Candle
  deriving Repr

/-- Source function getIntradayPrices (src/unnamed/part_003 lines 33-132).
Arguments: the two store subtrees, the write outcomes of the intraday and
daily cache writes, the request fields symbol, interval and month, the
candle sequence the upstream fetch returns on the miss path (outputSize,
adjusted and extendedHours only shape that fetch and are absorbed into it),
the current instant and the exchange-local clock.  Missing or blank symbol
raises HttpsError (Except.error); otherwise the response is returned
together with the stores after the call. -/
def getIntradayPrices (istore : IntradayStore) (astore : AggStore)
    (writeOk dailyWriteOk : Bool) (symbol : String) (intervalArg month : Option String)
    (fetched : List Candle) (now : Int) (et : ETClock) :
    Except Unit (IntradayResponse × IntradayStore × AggStore) :=
  if isBlank symbol then Except.error ()
  else
    let requestedInterval := intervalArg.getD "15min"
    let interval := if requestedInterval ∈ validIntervals then requestedInterval else "60min"
    let normalizedSymbol := toUpperString symbol
    let today := getTodayString now
    let targetDate := month.getD today
    match getCachedIntradayPrices istore normalizedSymbol targetDate interval now et with
    | some cached =>
      Except.ok ({ symbol := normalizedSymbol, interval := interval, candles := cached },
        istore, astore)
    | none =>
      let prices := fetched
      let istore2 := cacheIntradayPrices istore writeOk normalizedSymbol targetDate interval
        prices now
      let astore2 :=
        if month.isNone ∧ 0 < prices.length then
          match aggregateToDaily prices with
          | some dailyCandle =>
            updateDailyPrice astore dailyWriteOk normalizedSymbol today dailyCandle now
          | none => astore
        else astore
      Except.ok ({ symbol := normalizedSymbol, interval := interval, candles := prices },
        istore2, astore2)

/-- Response shape of getRecentOpenDay (part_003 lines 184-196, 232-244). -/
structure RecentOpenDayResponse where
  symbol : String
  interval : String
  tradingDay : Option String
  candles : List Candle
  deriving Repr

/-- Source function getRecentOpenDay (src/unnamed/part_003 lines 144-246):
smart cache lookup first; on a non-empty hit return it with the actual
interval; otherwise use the fetched recent-open-day candles, and only when
they are non-empty cache them and upsert the daily aggregate. -/
def getRecentOpenDay (istore : IntradayStore) (astore : AggStore)
    (writeOk dailyWriteOk : Bool) (symbol : String) (intervalArg : Option String)
    (fetched : List Candle) (now : Int) (et : ETClock) :
    Except Unit (RecentOpenDayResponse × IntradayStore × AggStore) :=
  if isBlank symbol then Except.error ()
  else
    let requestedInterval := intervalArg.getD "60min"
    let interval := if requestedInterval ∈ validIntervals then requestedInterval else "60min"
    let normalizedSymbol := toUpperString symbol
    let today := getTodayString now
    match findRecentCachedData istore normalizedSymbol interval now et with
    | some (c0 :: rest, actualInterval) =>
      Except.ok
        ({ symbol := normalizedSymbol, interval := actualInterval,
           tradingDay := some (toDateString c0.time), candles := c0 :: rest },
          istore, astore)
    | _ =>
      let candles := fetched
      let tradingDay :=
        match candles with
        | c0 :: _ => some (toDateString c0.time)
        | [] => none
      if 0 < candles.length then
        let istore2 := cacheIntradayPrices istore writeOk normalizedSymbol today interval
          candles now
        let astore2 :=
          match aggregateToDaily candles with
          | some dailyCandle =>
            updateDailyPrice astore dailyWriteOk normalizedSymbol today dailyCandle now
          | none => astore
        Except.ok
          ({ symbol := normalizedSymbol, interval := interval,
             tradingDay := tradingDay, candles := candles },
            istore2, astore2)
      else
        Except.ok
          ({ symbol := normalizedSymbol, interval := interval,
             tradingDay := tradingDay, candles := candles },
            istore, astore)

/-- C1 (code behaviour at the failing input): on a cold cache with the
upstream fetch returning zero candles, getIntradayPrices returns the empty
sequence to the caller but nevertheless creates an IntradayCacheEntry with
an empty candle list for the requested key (the write at part_003 line 109
is unconditional), while getRecentOpenDay at the same situation leaves both
stores untouched and returns the empty sequence, as the claim demands. -/
theorem getIntradayPrices_caches_empty_fetch :
    (∃ resp istore2 astore2,
      getIntradayPrices (fun _ => Except.ok none) (fun _ => Except.ok none) true true
          "AAPL" (some "15min") none [] 1000000000000 { day := 4, hour := 10, minute := 0 }
        = Except.ok (resp, istore2, astore2) ∧
      resp.candles = [] ∧
      istore2 ("AAPL", "intraday_2001-09-09")
        = Except.ok (some
            { date := "2001-09-09", interval := "15min", symbol := "AAPL",
              candles := [], lastUpdated := 1000000000000 }) ∧
      (fun _ => Except.ok none : IntradayStore) ("AAPL", "intraday_2001-09-09")
        = Except.ok none) ∧
    getRecentOpenDay (fun _ => Except.ok none) (fun _ => Except.ok none) true true
        "AAPL" (some "15min") [] 1000000000000 { day := 4, hour := 10, minute := 0 }
      = Except.ok ({ symbol := "AAPL", interval := "15min", tradingDay := none, candles := [] },
          (fun _ => Except.ok none), (fun _ => Except.ok none)) := by
  constructor
  · exact ⟨_, _, _, rfl, rfl, by rfl, rfl⟩
  · rfl

/-- C8: cache-layer failures are never surfaced.  A store read that throws
is reported by getCachedIntradayPrices and getCachedAggregatePrices as null
(a miss); a store write that throws leaves cacheIntradayPrices,
cacheAggregatePrices and updateDailyPrice returning normally with the store
unchanged; the response of getIntradayPrices does not depend on the write
outcomes; and on the miss path the request still returns its fetched
candles whatever the write outcomes. -/
theorem cache_errors_never_surfaced :
    (∀ (store : IntradayStore) (symbol date interval : String) (now : Int) (et : ETClock),
      store (toUpperString symbol, "intraday_" ++ date) = Except.error () →
      getCachedIntradayPrices store symbol date interval now et = none) ∧
    (∀ (store : AggStore) (symbol granularity : String) (now : Int),
      store (toUpperString symbol, granularity) = Except.error () →
      getCachedAggregatePrices store symbol granularity now = none) ∧
    (∀ (store : IntradayStore) (symbol date interval : String) (candles : List Candle)
        (now : Int),
      cacheIntradayPrices store false symbol date interval candles now = store) ∧
    (∀ (store : AggStore) (symbol granularity : String) (prices : List (String × Candle))
        (now : Int),
      cacheAggregatePrices store false symbol granularity prices now = store) ∧
    (∀ (store : AggStore) (symbol date : String) (candle : Candle) (now : Int),
      updateDailyPrice store false symbol date candle now = store) ∧
    (∀ (istore : IntradayStore) (astore : AggStore) (w1 d1 w2 d2 : Bool) (symbol : String)
        (intervalArg month : Option String) (fetched : List Candle) (now : Int) (et : ETClock),
      (getIntradayPrices istore astore w1 d1 symbol intervalArg month fetched now et).map
          (fun r => r.1)
        = (getIntradayPrices istore astore w2 d2 symbol intervalArg month fetched now et).map
          (fun r => r.1)) ∧
    (∀ (istore : IntradayStore) (astore : AggStore) (w d : Bool) (symbol : String)
        (intervalArg month : Option String) (fetched : List Candle) (now : Int) (et : ETClock),
      isBlank symbol = false →
      getCachedIntradayPrices istore (toUpperString symbol) (month.getD (getTodayString now))
          (if intervalArg.getD "15min" ∈ validIntervals then intervalArg.getD "15min"
            else "60min") now et = none →
      ∃ istore2 astore2,
        getIntradayPrices istore astore w d symbol intervalArg month fetched now et
          = Except.ok
              ({ symbol := toUpperString symbol,
                 interval := if intervalArg.getD "15min" ∈ validIntervals
                   then intervalArg.getD "15min" else "60min",
                 candles := fetched },
                istore2, astore2)) := by
  refine ⟨?_, ?_, ?_, ?_, ?_, ?_, ?_⟩
  · intro store symbol date interval now et h
    unfold getCachedIntradayPrices
    rw [h]
  · intro store symbol granularity now h
    unfold getCachedAggregatePrices
    rw [h]
  · intro store symbol date interval candles now
    rfl
  · intro store symbol granularity prices now
    rfl
  · intro store symbol date candle now
    rfl
  · intro istore astore w1 d1 w2 d2 symbol intervalArg month fetched now et
    simp only [getIntradayPrices]
    by_cases hv : isBlank symbol
    · rw [if_pos hv, if_pos hv]
    · rw [if_neg hv, if_neg hv]
      generalize getCachedIntradayPrices istore (toUpperString symbol)
          (month.getD (getTodayString now))
          (if intervalArg.getD "15min" ∈ validIntervals then intervalArg.getD "15min"
            else "60min") now et = copt
      cases copt <;> rfl
  · intro istore astore w d symbol intervalArg month fetched now et hv hmiss
    simp only [getIntradayPrices]
    rw [if_neg (by simp [hv]), hmiss]
    exact ⟨_, _, rfl⟩

/-- Witness for C8: the read-degrades-to-miss part applied at a concrete
always-throwing store. -/
theorem cache_errors_never_surfaced_witness :
    getCachedIntradayPrices (fun _ => Except.error ()) "AAPL" "2025-01-02" "15min" 0
        { day := 4, hour := 10, minute := 0 }
      = none :=
  cache_errors_never_surfaced.1 (fun _ => Except.error ()) "AAPL" "2025-01-02" "15min" 0
    { day := 4, hour := 10, minute := 0 } rfl
